import Mathlib

/-!
# Timing map of the chart editor

A shallow embedding of `ChartEditor::TimingData` (`src/Core/TimingData.cpp`) and
of the note operations of `ChartEditor::Difficulty` (`src/Core/Difficulty.cpp`),
and theorems about them.

Conventions of the embedding

* `float` values are rationals: comparisons and arithmetic are exact, and there
  is no NaN and no infinity.
* An element access outside `[0, size())` has no defined result in the source;
  here every access is checked and the operation yields `none`.
* A division whose divisor is a program variable is guarded (`fdiv`): a zero
  divisor yields `none`.  Division by the literal `60.0F` is plain.
-/

namespace ChartEditor

/-! ## Data model -/

/-- A tempo change: the `beat()` at which it starts and its `tempo()` in beats per minute. -/
structure TimingPoint where
  beat : ℚ
  tempo : ℚ
deriving DecidableEq, Repr

/-- The timing map: `m_offset` is the time of beat 0, `m_timingPoints` the tempo points. -/
structure TimingData where
  m_offset : ℚ
  m_timingPoints : List TimingPoint
deriving DecidableEq, Repr

/-- Guarded division by a program variable: `none` when the divisor is zero. -/
def fdiv (a b : ℚ) : Option ℚ :=
  if b = 0 then none else some (a / b)

/-! ## `TimingData::tempo(float) const` -/

/-- The loop of the getter over the reversed sequence (`crbegin() .. crend()`).
Its body either leaves the loop (`break`, after which `0.0F` is returned) or
returns the tempo of the point under the iterator, so only the first reversed
element is ever inspected. -/
def tempoLoop (beat : ℚ) : List TimingPoint → ℚ
  | [] => 0
  | it :: _ => if it.beat > beat then 0 else it.tempo

/-- Embeds `float TimingData::tempo(const float beat) const noexcept`. -/
def TimingData.tempo (d : TimingData) (beat : ℚ) : ℚ :=
  tempoLoop beat d.m_timingPoints.reverse

/-! ## `TimingData::tempo(float, float)` -/

/-- Checked `m_timingPoints[i]` for a signed index. -/
def pointAt (pts : List TimingPoint) (i : Int) : Option TimingPoint :=
  if i < 0 then none else pts[i.toNat]?

/-- The backward loop `for (i = ...; i >= 0; --i)` of the setter.  The last
argument is `i + 1`: at `0` the loop condition `i >= 0` fails and the statement
after the loop (`emplace_back`) runs; at `k + 1` the body runs with `i = k`.

* `tp.beat() > beat`: `continue`;
* `tp.beat() == beat`: read `m_timingPoints[i - 1]`; when its tempo equals the
  new tempo, `erase(cbegin() + 1)` (the element at index 1), otherwise
  overwrite the tempo of `m_timingPoints[i]`;
* otherwise `emplace(cbegin() + i + 1, beat, tempo)`. -/
def setTempoLoop (pts : List TimingPoint) (beat tempo : ℚ) :
    Nat → Option (List TimingPoint)
  | 0 => some (pts ++ [⟨beat, tempo⟩])
  | i + 1 =>
    match pts[i]? with
    | none => none
    | some tp =>
      if tp.beat > beat then setTempoLoop pts beat tempo i
      else if tp.beat = beat then
        match pointAt pts ((i : Int) - 1) with
        | none => none
        | some prev =>
          if prev.tempo = tempo then some (pts.eraseIdx 1)
          else some (pts.set i { tp with tempo := tempo })
      else some (pts.take (i + 1) ++ ⟨beat, tempo⟩ :: pts.drop (i + 1))

/-- The body of the setter, with the initial value of the loop variable as a
parameter: `first` is that value plus one (the source has `i = size()`, see
`TimingData.setTempo`).  The three guards come first: negative tempo and
negative beat return at once, beat 0 overwrites `m_timingPoints[0]`'s tempo. -/
def TimingData.setTempoFrom (first : Nat) (d : TimingData) (beat tempo : ℚ) :
    Option TimingData :=
  if tempo < 0 then some d
  else if beat < 0 then some d
  else if beat = 0 then
    match d.m_timingPoints with
    | [] => none
    | p :: rest => some { d with m_timingPoints := { p with tempo := tempo } :: rest }
  else
    (setTempoLoop d.m_timingPoints beat tempo first).map
      fun pts => { d with m_timingPoints := pts }

/-- Embeds `void TimingData::tempo(const float beat, const float tempo)`: the
scan starts at `i = size()`. -/
def TimingData.setTempo (d : TimingData) (beat tempo : ℚ) : Option TimingData :=
  d.setTempoFrom (d.m_timingPoints.length + 1) beat tempo

/-! ## `TimingData::beat` and `TimingData::time` -/

/-- The local variables of the walk in `TimingData::beat`. -/
structure BeatWalk where
  previousTime : ℚ
  currentTime : ℚ
  previousBeat : ℚ
  previousTempo : ℚ
deriving DecidableEq, Repr

/-- The range-for loop of `TimingData::beat`: add the segment's duration to
`currentTime`; `break` when it exceeds `time`, otherwise advance `previous*`. -/
def beatLoop (time : ℚ) : List TimingPoint → BeatWalk → Option BeatWalk
  | [], s => some s
  | tp :: rest, s =>
    match fdiv (tp.beat - s.previousBeat) s.previousTempo with
    | none => none
    | some q =>
      let currentTime := s.currentTime + q * 60
      if currentTime > time then some { s with currentTime := currentTime }
      else beatLoop time rest
        { previousTime := currentTime, currentTime := currentTime,
          previousBeat := tp.beat, previousTempo := tp.tempo }

/-- Embeds `float TimingData::beat(const float time) const noexcept`. -/
def TimingData.beat (d : TimingData) (time : ℚ) : Option ℚ :=
  match d.m_timingPoints with
  | [] => none
  | p0 :: rest =>
    if time ≤ d.m_offset then fdiv (time - d.m_offset) (p0.tempo / 60)
    else
      (beatLoop time (p0 :: rest)
        { previousTime := d.m_offset, currentTime := d.m_offset,
          previousBeat := p0.beat, previousTempo := p0.tempo }).map
        fun s => s.previousBeat + (time - s.previousTime) / 60 * s.previousTempo

/-- The local variables of the walk in `TimingData::time`. -/
structure TimeWalk where
  currentTime : ℚ
  previousBeat : ℚ
  previousTempo : ℚ
deriving DecidableEq, Repr

/-- The range-for loop of `TimingData::time`: `break` at the first point past
`beat`, otherwise add the elapsed segment and advance `previous*`. -/
def timeLoop (beat : ℚ) : List TimingPoint → TimeWalk → Option TimeWalk
  | [], s => some s
  | tp :: rest, s =>
    if tp.beat > beat then some s
    else
      match fdiv (tp.beat - s.previousBeat) s.previousTempo with
      | none => none
      | some q =>
        timeLoop beat rest
          { currentTime := s.currentTime + q * 60,
            previousBeat := tp.beat, previousTempo := tp.tempo }

/-- Embeds `float TimingData::time(const float beat) const noexcept`.  The
seed of `previousTempo` is `m_timingPoints[0].beat()`, as in the source. -/
def TimingData.time (d : TimingData) (beat : ℚ) : Option ℚ :=
  match d.m_timingPoints with
  | [] => none
  | p0 :: rest =>
    if beat ≤ 0 then (fdiv beat p0.tempo).map fun q => q * 60 + d.m_offset
    else
      match timeLoop beat (p0 :: rest)
          { currentTime := d.m_offset, previousBeat := p0.beat,
            previousTempo := p0.beat } with
      | none => none
      | some s =>
        (fdiv (beat - s.previousBeat) s.previousTempo).map
          fun q => s.currentTime + q * 60

/-! ## Properties named by the specification -/

/-- The sequence is strictly increasing by beat. -/
def StrictlyIncreasing (pts : List TimingPoint) : Prop :=
  pts.Pairwise fun p q => p.beat < q.beat

/-- Well-formed sequence: non-empty, `points[0].beat == 0`, strictly increasing by beat. -/
def WellFormed (pts : List TimingPoint) : Prop :=
  (∃ p rest, pts = p :: rest ∧ p.beat = 0) ∧ StrictlyIncreasing pts

/-- The last point whose beat is at most `b`, in sequence order. -/
def lastAtOrBefore (pts : List TimingPoint) (b : ℚ) : Option TimingPoint :=
  (pts.filter fun p => p.beat ≤ b).getLast?

/-- The last point whose beat is strictly less than `b`, in sequence order. -/
def lastBefore (pts : List TimingPoint) (b : ℚ) : Option TimingPoint :=
  (pts.filter fun p => p.beat < b).getLast?

/-- The getter as the specification words it: the tempo of the last point
whose beat is at most the target beat, `0` when there is none. -/
def specTempoAt (pts : List TimingPoint) (b : ℚ) : ℚ :=
  match lastAtOrBefore pts b with
  | some p => p.tempo
  | none => 0

/-- Sorted ascending by beat (equal beats allowed). -/
def SortedByBeat (pts : List TimingPoint) : Prop :=
  pts.Pairwise fun p q => p.beat ≤ q.beat

/-- The accumulated time at which point `k` of the remaining points starts:
each point adds the duration of the segment that ends at it,
`(beat - previous beat) / previous tempo * 60`. -/
def startTimeFrom (acc prevBeat prevTempo : ℚ) : List TimingPoint → Nat → Option ℚ
  | [], _ => none
  | tp :: _, 0 => some (acc + (tp.beat - prevBeat) / prevTempo * 60)
  | tp :: rest, k + 1 =>
    startTimeFrom (acc + (tp.beat - prevBeat) / prevTempo * 60) tp.beat tp.tempo rest k

/-- The accumulated start time of tempo point `k`: the offset plus the
durations of the segments before it, each at its own tempo. -/
def TimingData.startTime (d : TimingData) (k : Nat) : Option ℚ :=
  match d.m_timingPoints with
  | [] => none
  | p0 :: rest => startTimeFrom d.m_offset p0.beat p0.tempo (p0 :: rest) k

/-- The state in which the walk of `TimingData::beat` starts. -/
def TimingData.beatWalkStart (d : TimingData) (p0 : TimingPoint) : BeatWalk :=
  { previousTime := d.m_offset, currentTime := d.m_offset,
    previousBeat := p0.beat, previousTempo := p0.tempo }

/-! ## `Difficulty` (`src/Core/Difficulty.cpp`) -/

/-- A handle to a note type; the source holds a `std::weak_ptr<NoteType>`. -/
abbrev NoteTypeRef := Nat

/-- A note type as built by `addNoteType(name, isMine, isRoll)`. -/
structure NoteType where
  name : String
  isMine : Bool
  isRoll : Bool
deriving DecidableEq, Repr

/-- A note, with the constructor's arguments `(noteType, beat, holdLength, lane)`.
The lane is a `uint8_t`; it is only ever compared. -/
structure Note where
  type : NoteTypeRef
  beat : ℚ
  holdLength : ℚ
  lane : Nat
deriving DecidableEq, Repr

/-- The optional fields of an edit (`std::optional` members `type`, `holdLength`). -/
structure EditNoteParams where
  type : Option NoteTypeRef
  holdLength : Option ℚ
deriving DecidableEq, Repr

/-- The exception `NoteAlreadyExistsException(beat, lane)`. -/
structure NoteAlreadyExistsException where
  beat : ℚ
  lane : Nat
deriving DecidableEq, Repr

/-- A difficulty: its name, its notes and its note types. -/
structure Difficulty where
  m_name : String
  m_notes : List Note
  m_noteTypes : List NoteType
deriving DecidableEq, Repr

/-- The predicate of the three `find_if` / `erase_if` calls:
`note.beat() == beat && note.lane() == lane`. -/
def sameKey (beat : ℚ) (lane : Nat) (note : Note) : Bool :=
  note.beat == beat && note.lane == lane

/-- Embeds `Difficulty::addNote`.  The result pairs what the call signals
(`none` for a normal return, `some e` for a thrown exception) with the
difficulty after the call; the `throw` precedes every write. -/
def Difficulty.addNote (d : Difficulty) (noteType : NoteTypeRef) (beat holdLength : ℚ)
    (lane : Nat) : Option NoteAlreadyExistsException × Difficulty :=
  if (d.m_notes.find? (sameKey beat lane)).isSome then
    (some ⟨beat, lane⟩, d)
  else
    (none, { d with m_notes := d.m_notes ++ [⟨noteType, beat, holdLength, lane⟩] })

/-- The writes of `editNote` through the iterator `find_if` returned: the first
note with the key gets the type and the hold length that are present. -/
def editFirst (beat : ℚ) (lane : Nat) (params : EditNoteParams) : List Note → List Note
  | [] => []
  | note :: rest =>
    if sameKey beat lane note then
      let n1 := match params.type with
        | some t => { note with type := t }
        | none => note
      let n2 := match params.holdLength with
        | some h => { n1 with holdLength := h }
        | none => n1
      n2 :: rest
    else note :: editFirst beat lane params rest

/-- Embeds `Difficulty::editNote`: when no note has the key, `editFirst` returns
the list as it is (the `return` on `note == m_notes.end()`). -/
def Difficulty.editNote (d : Difficulty) (beat : ℚ) (lane : Nat) (params : EditNoteParams) :
    Difficulty :=
  { d with m_notes := editFirst beat lane params d.m_notes }

/-- Embeds `Difficulty::removeNote`: `std::erase_if` drops every note with the key. -/
def Difficulty.removeNote (d : Difficulty) (beat : ℚ) (lane : Nat) : Difficulty :=
  { d with m_notes := d.m_notes.filter fun note => !sameKey beat lane note }

/-- No two notes share the same (beat, lane) pair. -/
def UniqueKeys (notes : List Note) : Prop :=
  notes.Pairwise fun a b => ¬ (a.beat = b.beat ∧ a.lane = b.lane)

/-! ## The getter -/

/-- What the getter computes: the tempo of the final point when that point's
beat is at most the target, and `0` in every other case. -/
theorem tempo_eq_of_getLast (d : TimingData) (b : ℚ) :
    d.tempo b =
      match d.m_timingPoints.getLast? with
      | none => 0
      | some p => if p.beat > b then 0 else p.tempo := by
  unfold TimingData.tempo
  rcases List.eq_nil_or_concat d.m_timingPoints with h | ⟨l, p, h⟩
  · simp [h, tempoLoop]
  · simp [h, tempoLoop]

/-- C1 (the code departs from the claim).  On the well-formed sequence
`[(0,120), (4,240)]`, which is what the setter's loop body gives for
`(4, 240)` on `[(0,120)]` when entered at `i = size() - 1`, the getter at beat 3
returns `0`, whereas the last point whose beat is at most 3 is `(0,120)`, of
tempo 120.  At beats 4 and 5 it returns 240. -/
theorem C1_getter_misses_earlier_points :
    WellFormed [⟨0, 120⟩, ⟨4, 240⟩] ∧
    (TimingData.mk 0 [⟨0, 120⟩]).setTempoFrom 1 4 240
      = some ⟨0, [⟨0, 120⟩, ⟨4, 240⟩]⟩ ∧
    (TimingData.mk 0 [⟨0, 120⟩, ⟨4, 240⟩]).tempo 3 = 0 ∧
    specTempoAt [⟨0, 120⟩, ⟨4, 240⟩] 3 = 120 ∧
    (TimingData.mk 0 [⟨0, 120⟩, ⟨4, 240⟩]).tempo 4 = 240 ∧
    (TimingData.mk 0 [⟨0, 120⟩, ⟨4, 240⟩]).tempo 5 = 240 := by
  refine ⟨⟨⟨_, _, rfl, rfl⟩, ?_⟩, ?_, ?_, ?_, ?_, ?_⟩
  · unfold StrictlyIncreasing; decide
  all_goals decide

/-! ## The setter: rejected arguments -/

/-- C2.  With a negative tempo or a negative beat the setter returns normally
and the map (tempo points and offset) is exactly the one it was given. -/
theorem C2_setTempo_rejects_negative (d : TimingData) (beat tempo : ℚ)
    (h : tempo < 0 ∨ beat < 0) : d.setTempo beat tempo = some d := by
  unfold TimingData.setTempo TimingData.setTempoFrom
  rcases h with h | h
  · simp [h]
  · by_cases ht : tempo < 0 <;> simp [ht, h]

/-- Witness for C2: tempo `-1` at beat 4, and beat `-1` with tempo 240. -/
theorem C2_setTempo_rejects_negative_witness :
    ((-1 : ℚ) < 0 ∨ (4 : ℚ) < 0) ∧
    (TimingData.mk 0 [⟨0, 120⟩, ⟨4, 240⟩]).setTempo 4 (-1)
      = some ⟨0, [⟨0, 120⟩, ⟨4, 240⟩]⟩ :=
  ⟨by decide, C2_setTempo_rejects_negative ⟨0, [⟨0, 120⟩, ⟨4, 240⟩]⟩ 4 (-1) (by decide)⟩

/-! ## The setter: the backward scan -/

/-- C6 (the code departs from the claim).  On the well-formed sequence
`[(0,120), (4,240), (8,120)]` the segment before beat 8 has tempo 240.
`setTempo(8, 240)` reads index `size()` first and yields nothing.  Entered at
`i = size() - 1`, the loop body finds the point at beat 8, sees its
predecessor's tempo equal to 240 and erases index 1: the point at beat 4 goes,
the point at beat 8 stays.  And on `[(0,120)]`, entered at `i = size() - 1`
with `(4, 120)`, it emplaces a point at beat 4 although 120 is the tempo of the
segment before it. -/
theorem C6_merge_erases_index_one :
    WellFormed [⟨0, 120⟩, ⟨4, 240⟩, ⟨8, 120⟩] ∧
    lastBefore [⟨0, 120⟩, ⟨4, 240⟩, ⟨8, 120⟩] 8 = some ⟨4, 240⟩ ∧
    (TimingData.mk 0 [⟨0, 120⟩, ⟨4, 240⟩, ⟨8, 120⟩]).setTempo 8 240 = none ∧
    (TimingData.mk 0 [⟨0, 120⟩, ⟨4, 240⟩, ⟨8, 120⟩]).setTempoFrom 3 8 240
      = some ⟨0, [⟨0, 120⟩, ⟨8, 120⟩]⟩ ∧
    (TimingData.mk 0 [⟨0, 120⟩]).setTempoFrom 1 4 120
      = some ⟨0, [⟨0, 120⟩, ⟨4, 120⟩]⟩ := by
  refine ⟨⟨⟨_, _, rfl, rfl⟩, ?_⟩, ?_, ?_, ?_, ?_⟩
  · unfold StrictlyIncreasing; decide
  all_goals decide

/-- C7 (the code departs from the claim).  From the single point `(0,120)`,
`setTempo(4, 240)` starts its scan at index `size() = 1`, outside the sequence,
and yields nothing; so does `setTempo(4, 120)` on `[(0,120), (4,240)]`.  Only
when the loop body is entered at `i = size() - 1` does the scenario run as
described: `(4,240)` is emplaced, `(4, 120)` then erases it (it sits at index
1), and the getter at beat 4 returns 120. -/
theorem C7_merge_scenario_starts_past_end :
    (TimingData.mk 0 [⟨0, 120⟩]).setTempo 4 240 = none ∧
    (TimingData.mk 0 [⟨0, 120⟩]).setTempoFrom 1 4 240
      = some ⟨0, [⟨0, 120⟩, ⟨4, 240⟩]⟩ ∧
    (TimingData.mk 0 [⟨0, 120⟩, ⟨4, 240⟩]).setTempo 4 120 = none ∧
    (TimingData.mk 0 [⟨0, 120⟩, ⟨4, 240⟩]).setTempoFrom 2 4 120
      = some ⟨0, [⟨0, 120⟩]⟩ ∧
    (TimingData.mk 0 [⟨0, 120⟩]).tempo 4 = 120 := by
  refine ⟨?_, ?_, ?_, ?_, ?_⟩ <;> decide

/-! ## The base point -/

/-- C8.  On a non-empty sequence whose first beat is 0, `setTempo(0, X)` with
`X` at least 0 returns, and the map it leaves has the same offset, the same
length, the same beats, the same points from index 1 on, and `X` as the tempo
of its first point.  The number of points at beat 0 is therefore the same as
before: exactly one whenever the sequence is strictly increasing by beat. -/
theorem C8_setTempo_zero_overwrites_base (d : TimingData) (X : ℚ)
    (hne : ∃ p rest, d.m_timingPoints = p :: rest ∧ p.beat = 0) (hX : 0 ≤ X) :
    ∃ d', d.setTempo 0 X = some d' ∧
      d'.m_offset = d.m_offset ∧
      d'.m_timingPoints.length = d.m_timingPoints.length ∧
      d'.m_timingPoints.map TimingPoint.beat = d.m_timingPoints.map TimingPoint.beat ∧
      d'.m_timingPoints.tail = d.m_timingPoints.tail ∧
      d'.m_timingPoints.head?.map TimingPoint.tempo = some X ∧
      (d'.m_timingPoints.filter fun q => q.beat = 0).length
        = (d.m_timingPoints.filter fun q => q.beat = 0).length ∧
      (StrictlyIncreasing d.m_timingPoints →
        (d'.m_timingPoints.filter fun q => q.beat = 0).length = 1) := by
  obtain ⟨p, rest, hp, hp0⟩ := hne
  refine ⟨{ d with m_timingPoints := { p with tempo := X } :: rest }, ?_, rfl, ?_, ?_, ?_,
    rfl, ?_, ?_⟩
  · simp [TimingData.setTempo, TimingData.setTempoFrom, not_lt.mpr hX, hp]
  · simp [hp]
  · simp [hp]
  · simp [hp]
  · simp [hp, hp0]
  · intro hs
    rw [hp] at hs
    unfold StrictlyIncreasing at hs
    rw [List.pairwise_cons] at hs
    have hrest : rest.filter (fun q => decide (q.beat = 0)) = [] := by
      rw [List.filter_eq_nil_iff]
      intro q hq
      have := hs.1 q hq
      rw [hp0] at this
      simpa using ne_of_gt this
    simp [hp0, hrest]

/-- Witness for C8: the base tempo of `[(0,120), (4,240)]` is set to 90. -/
theorem C8_setTempo_zero_overwrites_base_witness :
    (TimingData.mk 3 [⟨0, 120⟩, ⟨4, 240⟩]).setTempo 0 90
      = some ⟨3, [⟨0, 90⟩, ⟨4, 240⟩]⟩ ∧
    ∃ d', (TimingData.mk 3 [⟨0, 120⟩, ⟨4, 240⟩]).setTempo 0 90 = some d' ∧
      d'.m_offset = 3 ∧
      d'.m_timingPoints.length = 2 ∧
      d'.m_timingPoints.map TimingPoint.beat = [0, 4] ∧
      d'.m_timingPoints.tail = [⟨4, 240⟩] ∧
      d'.m_timingPoints.head?.map TimingPoint.tempo = some 90 ∧
      (d'.m_timingPoints.filter fun q => q.beat = 0).length
        = ([(⟨0, 120⟩ : TimingPoint), ⟨4, 240⟩].filter fun q => q.beat = 0).length ∧
      (StrictlyIncreasing [⟨0, 120⟩, ⟨4, 240⟩] →
        (d'.m_timingPoints.filter fun q => q.beat = 0).length = 1) :=
  ⟨by decide,
    C8_setTempo_zero_overwrites_base ⟨3, [⟨0, 120⟩, ⟨4, 240⟩]⟩ 90
      ⟨⟨0, 120⟩, [⟨4, 240⟩], rfl, rfl⟩ (by decide)⟩

/-! ## Insertion -/

/-- C10 (the code departs from the claim).  On the map with offset 0 and the
single point `(0,120)`, `time(2)` seeds `previousTempo` with the first point's
beat, 0, and its first division has divisor 0: no time comes back, so
`beat(time(2))` is not 2.  Likewise `beat(1)` is 2 and `time(beat(1))` is not 1. -/
theorem C10_round_trip_stops_at_seed :
    (TimingData.mk 0 [⟨0, 120⟩]).time 2 = none ∧
    ((TimingData.mk 0 [⟨0, 120⟩]).time 2).bind (TimingData.mk 0 [⟨0, 120⟩]).beat ≠ some 2 ∧
    (TimingData.mk 0 [⟨0, 120⟩]).beat 1 = some 2 ∧
    ((TimingData.mk 0 [⟨0, 120⟩]).beat 1).bind (TimingData.mk 0 [⟨0, 120⟩]).time ≠ some 1 := by
  have hbeat : (TimingData.mk 0 [⟨0, 120⟩]).beat 1 = some 2 := by
    simp [TimingData.beat, beatLoop, fdiv]
    norm_num
  refine ⟨by decide, by decide, hbeat, ?_⟩
  rw [hbeat]
  decide

/-! ## `time` on positive beats -/

/-- C17.  On a map whose first point has beat 0, for every positive beat the
walk of `time` does not leave the loop at the first point, its first division
is `(points[0].beat - points[0].beat) / previousTempo` with `previousTempo`
seeded from `points[0].beat`, the divisor is zero, and the call ends in the
division-by-zero branch. -/
theorem C17_time_seed_divides_by_zero (d : TimingData) (beat : ℚ)
    (hne : ∃ p rest, d.m_timingPoints = p :: rest ∧ p.beat = 0) (hb : 0 < beat) :
    ∃ p0 rest, d.m_timingPoints = p0 :: rest ∧ ¬ p0.beat > beat ∧
      fdiv (p0.beat - p0.beat) p0.beat = none ∧
      timeLoop beat (p0 :: rest)
        { currentTime := d.m_offset, previousBeat := p0.beat, previousTempo := p0.beat }
        = none ∧
      d.time beat = none := by
  obtain ⟨p0, rest, hp, h0⟩ := hne
  have hnb : ¬ p0.beat > beat := by rw [h0]; exact not_lt.mpr hb.le
  have hdiv : fdiv (p0.beat - p0.beat) p0.beat = none := by simp [fdiv, h0]
  have hloop : timeLoop beat (p0 :: rest)
      { currentTime := d.m_offset, previousBeat := p0.beat, previousTempo := p0.beat }
      = none := by
    rw [timeLoop]
    simp only [hnb, if_false, hdiv]
  refine ⟨p0, rest, hp, hnb, hdiv, hloop, ?_⟩
  unfold TimingData.time
  rw [hp]
  simp only [not_le.mpr hb, if_false, hloop]

/-- Witness for C17: `time(2)` on the single point `(0,120)`. -/
theorem C17_time_seed_divides_by_zero_witness :
    ∃ p0 rest, (TimingData.mk 0 [⟨0, 120⟩]).m_timingPoints = p0 :: rest ∧ ¬ p0.beat > 2 ∧
      fdiv (p0.beat - p0.beat) p0.beat = none ∧
      timeLoop 2 (p0 :: rest)
        { currentTime := (TimingData.mk 0 [⟨0, 120⟩]).m_offset,
          previousBeat := p0.beat, previousTempo := p0.beat } = none ∧
      (TimingData.mk 0 [⟨0, 120⟩]).time 2 = none :=
  C17_time_seed_divides_by_zero ⟨0, [⟨0, 120⟩]⟩ 2 ⟨⟨0, 120⟩, [], rfl, rfl⟩ (by decide)

/-- C11 (the code departs from the claim).  On the well-formed map with offset
0 and the single point `(0,120)`, for the beats `1 < 2` neither `time(1)` nor
`time(2)` yields a value, so no order holds between them; for the beats
`-2 < -1` the times are `-1` and `-1/2`. -/
theorem C11_time_has_no_value_to_compare :
    WellFormed [⟨0, 120⟩] ∧
    (TimingData.mk 0 [⟨0, 120⟩]).time 1 = none ∧
    (TimingData.mk 0 [⟨0, 120⟩]).time 2 = none ∧
    (¬ ∃ t1 t2, (TimingData.mk 0 [⟨0, 120⟩]).time 1 = some t1 ∧
      (TimingData.mk 0 [⟨0, 120⟩]).time 2 = some t2 ∧ t1 ≤ t2) ∧
    (TimingData.mk 0 [⟨0, 120⟩]).time (-2) = some (-1) ∧
    (TimingData.mk 0 [⟨0, 120⟩]).time (-1) = some (-1 / 2) := by
  have h1 : (TimingData.mk 0 [⟨0, 120⟩]).time 1 = none := by decide
  refine ⟨⟨⟨_, _, rfl, rfl⟩, ?_⟩, h1, by decide, ?_, ?_, ?_⟩
  · unfold StrictlyIncreasing; decide
  · rintro ⟨t1, t2, ht1, _, _⟩
    rw [h1] at ht1
    cases ht1
  · simp [TimingData.time, fdiv]; norm_num
  · simp [TimingData.time, fdiv]; norm_num

/-- C12 (the code departs from the claim).  On the well-formed map with offset
0 and points `(0,120), (8,180)`, the beats 9 and 10 lie in segment 1, where the
claimed difference is `(10 - 9) / 180 * 60`; `time(9)` and `time(10)` yield no
value.  For the beats `-2` and `-1` the difference is `(-1 - -2) / 120 * 60`. -/
theorem C12_segment_difference_has_no_value :
    WellFormed [⟨0, 120⟩, ⟨8, 180⟩] ∧
    (TimingData.mk 0 [⟨0, 120⟩, ⟨8, 180⟩]).time 9 = none ∧
    (TimingData.mk 0 [⟨0, 120⟩, ⟨8, 180⟩]).time 10 = none ∧
    (¬ ∃ t1 t2, (TimingData.mk 0 [⟨0, 120⟩, ⟨8, 180⟩]).time 9 = some t1 ∧
      (TimingData.mk 0 [⟨0, 120⟩, ⟨8, 180⟩]).time 10 = some t2 ∧
      t2 - t1 = (10 - 9) / 180 * 60) ∧
    (∃ t1 t2, (TimingData.mk 0 [⟨0, 120⟩, ⟨8, 180⟩]).time (-2) = some t1 ∧
      (TimingData.mk 0 [⟨0, 120⟩, ⟨8, 180⟩]).time (-1) = some t2 ∧
      t2 - t1 = (-1 - -2) / 120 * 60) := by
  have h9 : (TimingData.mk 0 [⟨0, 120⟩, ⟨8, 180⟩]).time 9 = none := by decide
  refine ⟨⟨⟨_, _, rfl, rfl⟩, ?_⟩, h9, by decide, ?_, ?_⟩
  · unfold StrictlyIncreasing; decide
  · rintro ⟨t1, t2, ht1, _, _⟩
    rw [h9] at ht1
    cases ht1
  · refine ⟨-1, -1 / 2, ?_, ?_, by norm_num⟩
    · simp [TimingData.time, fdiv]; norm_num
    · simp [TimingData.time, fdiv]; norm_num

/-- C13 (the code departs from the claim).  With offset 0 and the single point
`(0,120)`, `time(2)` yields no value where the claim has `2 / 120 * 60 = 1`;
at the non-positive beat `-2` the value is `-2 / 120 * 60 + 0`. -/
theorem C13_time_of_two_has_no_value :
    (TimingData.mk 0 [⟨0, 120⟩]).time 2 = none ∧
    (TimingData.mk 0 [⟨0, 120⟩]).time 2 ≠ some (2 / 120 * 60 + 0) ∧
    (2 : ℚ) / 120 * 60 + 0 = 1 ∧
    (TimingData.mk 0 [⟨0, 120⟩]).time (-2) = some (-2 / 120 * 60 + 0) := by
  have h2 : (TimingData.mk 0 [⟨0, 120⟩]).time 2 = none := by decide
  refine ⟨h2, ?_, by norm_num, ?_⟩
  · rw [h2]; exact fun h => by cases h
  · simp [TimingData.time, fdiv]

/-- C19 (the code departs from the claim).  With offset 0 and the points
`(0,120), (8,180)`, `time(8)` yields no value where the claim has 4, so
`beat(time(8))` is not 8; `beat(4)` itself is 8. -/
theorem C19_round_trip_stops_at_time :
    WellFormed [⟨0, 120⟩, ⟨8, 180⟩] ∧
    (TimingData.mk 0 [⟨0, 120⟩, ⟨8, 180⟩]).time 8 = none ∧
    ((TimingData.mk 0 [⟨0, 120⟩, ⟨8, 180⟩]).time 8).bind
      (TimingData.mk 0 [⟨0, 120⟩, ⟨8, 180⟩]).beat ≠ some 8 ∧
    (TimingData.mk 0 [⟨0, 120⟩, ⟨8, 180⟩]).beat 4 = some 8 := by
  refine ⟨⟨⟨_, _, rfl, rfl⟩, ?_⟩, by decide, by decide, ?_⟩
  · unfold StrictlyIncreasing; decide
  · simp [TimingData.beat, beatLoop, fdiv]
    norm_num

/-! ## The getter before the first point -/

/-- C14.  On a non-empty sequence whose first beat is 0 and which is sorted by
beat, the getter returns 0 for every negative beat (it is a total function:
nothing is signalled). -/
theorem C14_tempo_before_first_point (d : TimingData) (b : ℚ)
    (hne : ∃ p rest, d.m_timingPoints = p :: rest ∧ p.beat = 0)
    (hs : SortedByBeat d.m_timingPoints) (hb : b < 0) : d.tempo b = 0 := by
  rw [tempo_eq_of_getLast]
  cases hlast : d.m_timingPoints.getLast? with
  | none => rfl
  | some q =>
    obtain ⟨p, rest, hp, hp0⟩ := hne
    have hq : q ∈ d.m_timingPoints := List.mem_of_getLast?_eq_some hlast
    have hge : 0 ≤ q.beat := by
      rw [hp] at hq hs
      unfold SortedByBeat at hs
      rw [List.pairwise_cons] at hs
      rcases List.mem_cons.mp hq with rfl | hq
      · exact hp0.ge
      · rw [← hp0]; exact hs.1 q hq
    simp only [gt_iff_lt, lt_of_lt_of_le hb hge, if_true]

/-- Witness for C14: beat `-1` on `[(0,120), (4,240)]`. -/
theorem C14_tempo_before_first_point_witness :
    (TimingData.mk 0 [⟨0, 120⟩, ⟨4, 240⟩]).tempo (-1) = 0 :=
  C14_tempo_before_first_point ⟨0, [⟨0, 120⟩, ⟨4, 240⟩]⟩ (-1)
    ⟨⟨0, 120⟩, [⟨4, 240⟩], rfl, rfl⟩ (by unfold SortedByBeat; decide) (by decide)

/-! ## The first access of the setter's scan -/

/-- C18.  For a positive beat and a tempo at least 0 the setter enters its
backward scan with `i = size()`; the element read first, at index `size()`,
does not exist, and with checked indexing the scan and the call yield `none`. -/
theorem C18_setTempo_first_access_past_end (d : TimingData) (beat tempo : ℚ)
    (hb : 0 < beat) (ht : 0 ≤ tempo) :
    d.setTempo beat tempo
      = (setTempoLoop d.m_timingPoints beat tempo (d.m_timingPoints.length + 1)).map
          (fun pts => { d with m_timingPoints := pts }) ∧
    d.m_timingPoints[d.m_timingPoints.length]? = none ∧
    setTempoLoop d.m_timingPoints beat tempo (d.m_timingPoints.length + 1) = none ∧
    d.setTempo beat tempo = none := by
  have hget : d.m_timingPoints[d.m_timingPoints.length]? = none :=
    List.getElem?_eq_none (Nat.le_refl _)
  have hloop : setTempoLoop d.m_timingPoints beat tempo (d.m_timingPoints.length + 1)
      = none := by
    rw [setTempoLoop, hget]
  have hcall : d.setTempo beat tempo
      = (setTempoLoop d.m_timingPoints beat tempo (d.m_timingPoints.length + 1)).map
          (fun pts => { d with m_timingPoints := pts }) := by
    unfold TimingData.setTempo TimingData.setTempoFrom
    simp only [not_lt.mpr ht, not_lt.mpr hb.le, ne_of_gt hb, if_false]
  refine ⟨hcall, hget, hloop, ?_⟩
  rw [hcall, hloop]
  rfl

/-- Witness for C18: `setTempo(4, 240)` on the single point `(0,120)`. -/
theorem C18_setTempo_first_access_past_end_witness :
    (TimingData.mk 0 [⟨0, 120⟩]).setTempo 4 240
      = (setTempoLoop [⟨0, 120⟩] 4 240 2).map
          (fun pts => { (TimingData.mk 0 [⟨0, 120⟩]) with m_timingPoints := pts }) ∧
    ([⟨0, 120⟩] : List TimingPoint)[1]? = none ∧
    setTempoLoop [⟨0, 120⟩] 4 240 2 = none ∧
    (TimingData.mk 0 [⟨0, 120⟩]).setTempo 4 240 = none :=
  C18_setTempo_first_access_past_end ⟨0, [⟨0, 120⟩]⟩ 4 240 (by decide) (by decide)

/-! ## Notes of a difficulty -/

/-- The predicate of the searches holds exactly for the notes with the beat and the lane. -/
theorem sameKey_iff (beat : ℚ) (lane : Nat) (note : Note) :
    sameKey beat lane note = true ↔ note.beat = beat ∧ note.lane = lane := by
  simp [sameKey]

/-- The search of `addNote` succeeds exactly when a note with the key is held. -/
theorem find_sameKey_isSome (notes : List Note) (beat : ℚ) (lane : Nat) :
    (notes.find? (sameKey beat lane)).isSome = true ↔
      ∃ n ∈ notes, n.beat = beat ∧ n.lane = lane := by
  rw [List.find?_isSome]
  constructor
  · rintro ⟨n, hn, hk⟩
    exact ⟨n, hn, (sameKey_iff beat lane n).mp hk⟩
  · rintro ⟨n, hn, hk⟩
    exact ⟨n, hn, (sameKey_iff beat lane n).mpr hk⟩

/-- C15.  `addNote` throws `NoteAlreadyExistsException(beat, lane)` exactly when
the difficulty already holds a note with that beat and that lane, and it signals
nothing else; when it throws the difficulty is unchanged, and when it returns
the note list is the old one with the new note `(type, beat, holdLength, lane)`
at the end. -/
theorem C15_addNote_outcome (d : Difficulty) (noteType : NoteTypeRef) (beat holdLength : ℚ)
    (lane : Nat) :
    ((d.addNote noteType beat holdLength lane).1 = some ⟨beat, lane⟩ ↔
      ∃ n ∈ d.m_notes, n.beat = beat ∧ n.lane = lane) ∧
    ((d.addNote noteType beat holdLength lane).1 = none ∨
      (d.addNote noteType beat holdLength lane).1 = some ⟨beat, lane⟩) ∧
    ((d.addNote noteType beat holdLength lane).1 ≠ none →
      (d.addNote noteType beat holdLength lane).2 = d) ∧
    ((d.addNote noteType beat holdLength lane).1 = none →
      (d.addNote noteType beat holdLength lane).2.m_notes
        = d.m_notes ++ [⟨noteType, beat, holdLength, lane⟩] ∧
      (d.addNote noteType beat holdLength lane).2.m_name = d.m_name ∧
      (d.addNote noteType beat holdLength lane).2.m_noteTypes = d.m_noteTypes) := by
  unfold Difficulty.addNote
  by_cases h : (d.m_notes.find? (sameKey beat lane)).isSome = true
  · have hex := (find_sameKey_isSome d.m_notes beat lane).mp h
    rw [if_pos h]
    exact ⟨⟨fun _ => hex, fun _ => rfl⟩, Or.inr rfl, fun _ => rfl,
      fun hn => Option.noConfusion hn⟩
  · have hex : ¬ ∃ n ∈ d.m_notes, n.beat = beat ∧ n.lane = lane :=
      fun hx => h ((find_sameKey_isSome d.m_notes beat lane).mpr hx)
    rw [if_neg h]
    exact ⟨⟨fun hn => Option.noConfusion hn, fun hx => absurd hx hex⟩, Or.inl rfl,
      fun hn => absurd rfl hn, fun _ => ⟨rfl, rfl, rfl⟩⟩

/-- An edit leaves the beat and the lane of every note, in order, as they were. -/
theorem editFirst_keys (beat : ℚ) (lane : Nat) (params : EditNoteParams) :
    ∀ notes : List Note,
      (editFirst beat lane params notes).map (fun n => (n.beat, n.lane))
        = notes.map (fun n => (n.beat, n.lane))
  | [] => rfl
  | note :: rest => by
    rw [editFirst]
    by_cases h : sameKey beat lane note = true
    · rw [if_pos h]
      cases params.type <;> cases params.holdLength <;> rfl
    · rw [if_neg h, List.map_cons, List.map_cons, editFirst_keys beat lane params rest]

/-- Uniqueness of the keys only looks at the list of (beat, lane) pairs. -/
theorem uniqueKeys_iff_keys (notes : List Note) :
    UniqueKeys notes ↔ (notes.map (fun n => (n.beat, n.lane))).Pairwise (· ≠ ·) := by
  unfold UniqueKeys
  rw [List.pairwise_map]
  refine List.Pairwise.iff ?_
  intro a b
  simp [Prod.ext_iff]

/-- C20.  When no two notes share a (beat, lane) pair, the same holds after
`addNote` (whether it throws or not), after `editNote` and after `removeNote`.
`editNote` keeps the list of (beat, lane) pairs, hence the number of notes.
After `removeNote(beat, lane)` no note has that pair, the remaining notes are
the old ones in their order, and every note with another pair is still there. -/
theorem C20_note_keys_stay_unique (d : Difficulty) (noteType : NoteTypeRef)
    (beat holdLength : ℚ) (lane : Nat) (params : EditNoteParams)
    (huniq : UniqueKeys d.m_notes) :
    UniqueKeys (d.addNote noteType beat holdLength lane).2.m_notes ∧
    UniqueKeys (d.editNote beat lane params).m_notes ∧
    UniqueKeys (d.removeNote beat lane).m_notes ∧
    (d.editNote beat lane params).m_notes.map (fun n => (n.beat, n.lane))
      = d.m_notes.map (fun n => (n.beat, n.lane)) ∧
    (d.editNote beat lane params).m_notes.length = d.m_notes.length ∧
    (∀ n ∈ (d.removeNote beat lane).m_notes, ¬ (n.beat = beat ∧ n.lane = lane)) ∧
    (d.removeNote beat lane).m_notes.Sublist d.m_notes ∧
    (∀ n ∈ d.m_notes, ¬ (n.beat = beat ∧ n.lane = lane) →
      n ∈ (d.removeNote beat lane).m_notes) := by
  have hkeys := editFirst_keys beat lane params d.m_notes
  refine ⟨?_, ?_, ?_, hkeys, ?_, ?_, ?_, ?_⟩
  · unfold Difficulty.addNote
    by_cases h : (d.m_notes.find? (sameKey beat lane)).isSome = true
    · rw [if_pos h]
      exact huniq
    · have hex : ¬ ∃ n ∈ d.m_notes, n.beat = beat ∧ n.lane = lane :=
        fun hx => h ((find_sameKey_isSome d.m_notes beat lane).mpr hx)
      rw [if_neg h]
      show UniqueKeys (d.m_notes ++ [⟨noteType, beat, holdLength, lane⟩])
      unfold UniqueKeys at huniq ⊢
      rw [List.pairwise_append]
      refine ⟨huniq, List.pairwise_singleton _ _, ?_⟩
      intro a ha b hb
      rw [List.mem_singleton.mp hb]
      exact fun hk => hex ⟨a, ha, hk⟩
  · rw [uniqueKeys_iff_keys] at huniq ⊢
    show List.Pairwise _ ((editFirst beat lane params d.m_notes).map _)
    rw [hkeys]
    exact huniq
  · exact List.Pairwise.sublist (List.filter_sublist _) huniq
  · have := congrArg List.length hkeys
    simpa using this
  · intro n hn
    have := (List.mem_filter.mp hn).2
    intro hk
    rw [(sameKey_iff beat lane n).mpr hk] at this
    cases this
  · exact List.filter_sublist _
  · intro n hn hk
    refine List.mem_filter.mpr ⟨hn, ?_⟩
    cases hs : sameKey beat lane n with
    | false => rfl
    | true => exact absurd ((sameKey_iff beat lane n).mp hs) hk

/-- Witness for C20: two notes on beat 0, lanes 2 and 3, and the key (0, 2). -/
theorem C20_note_keys_stay_unique_witness :
    UniqueKeys [⟨1, 0, 0, 2⟩, ⟨1, 0, 0, 3⟩] ∧
    UniqueKeys ((Difficulty.mk "d" [⟨1, 0, 0, 2⟩, ⟨1, 0, 0, 3⟩] []).addNote 1 0 4 2).2.m_notes ∧
    ((Difficulty.mk "d" [⟨1, 0, 0, 2⟩, ⟨1, 0, 0, 3⟩] []).removeNote 0 2).m_notes
      = [⟨1, 0, 0, 3⟩] :=
  have h : UniqueKeys [⟨1, 0, 0, 2⟩, ⟨1, 0, 0, 3⟩] := by unfold UniqueKeys; decide
  ⟨h,
    (C20_note_keys_stay_unique (Difficulty.mk "d" [⟨1, 0, 0, 2⟩, ⟨1, 0, 0, 3⟩] []) 1 0 4 2
      ⟨some 5, none⟩ h).1,
    by decide⟩

/-! ## The walk of `beat` at a segment boundary -/

/-- One iteration of the walk that does not leave the loop. -/
theorem beatLoop_cons_advance (t : ℚ) (tp : TimingPoint) (rest : List TimingPoint)
    (s : BeatWalk) (hpt : s.previousTempo ≠ 0)
    (hle : ¬ s.currentTime + (tp.beat - s.previousBeat) / s.previousTempo * 60 > t) :
    beatLoop t (tp :: rest) s
      = beatLoop t rest
          { previousTime := s.currentTime + (tp.beat - s.previousBeat) / s.previousTempo * 60,
            currentTime := s.currentTime + (tp.beat - s.previousBeat) / s.previousTempo * 60,
            previousBeat := tp.beat, previousTempo := tp.tempo } := by
  rw [beatLoop]
  simp only [fdiv, hpt, if_false, hle]

/-- One iteration of the walk that leaves the loop: `previous*` stay. -/
theorem beatLoop_cons_break (t : ℚ) (tp : TimingPoint) (rest : List TimingPoint)
    (s : BeatWalk) (hpt : s.previousTempo ≠ 0)
    (hgt : s.currentTime + (tp.beat - s.previousBeat) / s.previousTempo * 60 > t) :
    beatLoop t (tp :: rest) s
      = some { s with
          currentTime := s.currentTime + (tp.beat - s.previousBeat) / s.previousTempo * 60 } := by
  rw [beatLoop]
  simp only [fdiv, hpt, if_false, hgt, if_true]

/-- The duration of a segment is not negative. -/
theorem segment_nonneg (b pb pt : ℚ) (hpt : 0 < pt) (hb : pb ≤ b) :
    0 ≤ (b - pb) / pt * 60 :=
  mul_nonneg (div_nonneg (sub_nonneg.mpr hb) hpt.le) (by norm_num)

/-- The duration of a segment between distinct beats is positive. -/
theorem segment_pos (b pb pt : ℚ) (hpt : 0 < pt) (hb : pb < b) :
    0 < (b - pb) / pt * 60 :=
  mul_pos (div_pos (sub_pos.mpr hb) hpt) (by norm_num)

/-- Start times do not fall below the time accumulated so far. -/
theorem startTimeFrom_ge :
    ∀ (l : List TimingPoint) (k : Nat) (acc pb pt t : ℚ), 0 < pt →
      (∀ p ∈ l, 0 < p.tempo) → StrictlyIncreasing l → (∀ p ∈ l, pb ≤ p.beat) →
      startTimeFrom acc pb pt l k = some t → acc ≤ t
  | [], _, _, _, _, _, _, _, _, _, h => by cases h
  | tp :: rest, 0, acc, pb, pt, t, hpt, _, _, hge, h => by
    simp only [startTimeFrom, Option.some.injEq] at h
    have := segment_nonneg tp.beat pb pt hpt (hge tp (List.mem_cons_self _ _))
    linarith
  | tp :: rest, k + 1, acc, pb, pt, t, hpt, hpos, hs, hge, h => by
    rw [startTimeFrom] at h
    have hs' := List.pairwise_cons.mp hs
    have ih := startTimeFrom_ge rest k _ tp.beat tp.tempo t
      (hpos tp (List.mem_cons_self _ _))
      (fun p hp => hpos p (List.mem_cons_of_mem _ hp)) hs'.2
      (fun p hp => (hs'.1 p hp).le) h
    have := segment_nonneg tp.beat pb pt hpt (hge tp (List.mem_cons_self _ _))
    linarith

/-- Once `previous*` sit on a point at whose start time the target lies, the
rest of the walk leaves them there. -/
theorem beatLoop_stay (t : ℚ) (pk : TimingPoint) (rest : List TimingPoint)
    (hpt : 0 < pk.tempo) (hrest : ∀ q ∈ rest, pk.beat < q.beat) :
    ∃ s, beatLoop t rest
        { previousTime := t, currentTime := t,
          previousBeat := pk.beat, previousTempo := pk.tempo } = some s ∧
      s.previousBeat = pk.beat ∧ s.previousTempo = pk.tempo ∧ s.previousTime = t := by
  cases rest with
  | nil => exact ⟨_, rfl, rfl, rfl, rfl⟩
  | cons q rest' =>
    have hgt : t + (q.beat - pk.beat) / pk.tempo * 60 > t := by
      have := segment_pos q.beat pk.beat pk.tempo hpt (hrest q (List.mem_cons_self _ _))
      linarith
    exact ⟨_, beatLoop_cons_break t q rest' _ (ne_of_gt hpt) hgt, rfl, rfl, rfl⟩

/-- The walk for a target that is the start time of point `k` ends with
`previous*` on point `k`. -/
theorem beatLoop_at_start_time :
    ∀ (l : List TimingPoint) (k : Nat) (acc pT pb pt t : ℚ), 0 < pt →
      (∀ p ∈ l, 0 < p.tempo) → StrictlyIncreasing l → (∀ p ∈ l, pb ≤ p.beat) →
      startTimeFrom acc pb pt l k = some t →
      ∃ pk s, l[k]? = some pk ∧
        beatLoop t l
          { previousTime := pT, currentTime := acc,
            previousBeat := pb, previousTempo := pt } = some s ∧
        s.previousBeat = pk.beat ∧ s.previousTempo = pk.tempo ∧ s.previousTime = t
  | [], _, _, _, _, _, _, _, _, _, _, h => by cases h
  | tp :: rest, 0, acc, pT, pb, pt, t, hpt, hpos, hs, _, h => by
    simp only [startTimeFrom, Option.some.injEq] at h
    have hs' := List.pairwise_cons.mp hs
    obtain ⟨s, hloop, h1, h2, h3⟩ := beatLoop_stay t tp rest
      (hpos tp (List.mem_cons_self _ _)) hs'.1
    refine ⟨tp, s, List.getElem?_cons_zero, ?_, h1, h2, h3⟩
    rw [beatLoop_cons_advance t tp rest _ (ne_of_gt hpt) (by simp only [h]; exact lt_irrefl t)]
    simp only [h]
    exact hloop
  | tp :: rest, k + 1, acc, pT, pb, pt, t, hpt, hpos, hs, hge, h => by
    rw [startTimeFrom] at h
    have hs' := List.pairwise_cons.mp hs
    have hle := startTimeFrom_ge rest k _ tp.beat tp.tempo t
      (hpos tp (List.mem_cons_self _ _))
      (fun p hp => hpos p (List.mem_cons_of_mem _ hp)) hs'.2
      (fun p hp => (hs'.1 p hp).le) h
    obtain ⟨pk, s, hget, hloop, h1, h2, h3⟩ := beatLoop_at_start_time rest k
      (acc + (tp.beat - pb) / pt * 60) (acc + (tp.beat - pb) / pt * 60) tp.beat tp.tempo t
      (hpos tp (List.mem_cons_self _ _))
      (fun p hp => hpos p (List.mem_cons_of_mem _ hp)) hs'.2
      (fun p hp => (hs'.1 p hp).le) h
    refine ⟨pk, s, by rw [List.getElem?_cons_succ]; exact hget, ?_, h1, h2, h3⟩
    rw [beatLoop_cons_advance t tp rest _ (ne_of_gt hpt) (not_lt.mpr hle)]
    exact hloop

/-- In a strictly increasing sequence a point lies before the one that follows it. -/
theorem beat_lt_of_index_lt (pts : List TimingPoint) (hs : StrictlyIncreasing pts)
    (i j : Nat) (hij : i < j) (q pk : TimingPoint)
    (hq : pts[i]? = some q) (hpk : pts[j]? = some pk) : q.beat < pk.beat := by
  obtain ⟨hi, rfl⟩ := List.getElem?_eq_some_iff.mp hq
  obtain ⟨hj, rfl⟩ := List.getElem?_eq_some_iff.mp hpk
  exact List.pairwise_iff_getElem.mp hs i j hi hj hij

/-- C16 (as stated it fails).  With offset 0 and the points `(0,120), (8,180)`
the point at index 1 starts at time 4.  The walk of `beat(4)` reaches
`currentTime = 4` at that point, the test `currentTime > time` is false, and
`previous*` advance to it: the walk ends with `previousBeat = 8`,
`previousTempo = 180`, `previousTime = 4`, not with the values `0, 120, 0` of
the point at index 0. -/
theorem C16_walk_passes_exact_boundary :
    WellFormed [⟨0, 120⟩, ⟨8, 180⟩] ∧
    (TimingData.mk 0 [⟨0, 120⟩, ⟨8, 180⟩]).startTime 1 = some 4 ∧
    (TimingData.mk 0 [⟨0, 120⟩, ⟨8, 180⟩]).startTime 0 = some 0 ∧
    beatLoop 4 [⟨0, 120⟩, ⟨8, 180⟩]
        ((TimingData.mk 0 [⟨0, 120⟩, ⟨8, 180⟩]).beatWalkStart ⟨0, 120⟩)
      = some { previousTime := 4, currentTime := 4, previousBeat := 8, previousTempo := 180 } ∧
    ¬ ∃ s, beatLoop 4 [⟨0, 120⟩, ⟨8, 180⟩]
        ((TimingData.mk 0 [⟨0, 120⟩, ⟨8, 180⟩]).beatWalkStart ⟨0, 120⟩) = some s ∧
      s.previousBeat = 0 ∧ s.previousTempo = 120 ∧ s.previousTime = 0 := by
  have hloop : beatLoop 4 [⟨0, 120⟩, ⟨8, 180⟩]
        ((TimingData.mk 0 [⟨0, 120⟩, ⟨8, 180⟩]).beatWalkStart ⟨0, 120⟩)
      = some { previousTime := 4, currentTime := 4, previousBeat := 8, previousTempo := 180 } := by
    simp [beatLoop, fdiv, TimingData.beatWalkStart]
    norm_num
  refine ⟨⟨⟨_, _, rfl, rfl⟩, ?_⟩, ?_, ?_, hloop, ?_⟩
  · unfold StrictlyIncreasing; decide
  · simp [TimingData.startTime, startTimeFrom]; norm_num
  · simp [TimingData.startTime, startTimeFrom]
  · rintro ⟨s, hs, hb, _, _⟩
    rw [hloop] at hs
    simp only [Option.some.injEq] at hs
    rw [← hs] at hb
    norm_num at hb

/-- C16 (amended).  On a well-formed map whose tempos are all positive, for a
time `t` after the offset that is the accumulated start time of the tempo point
`k`, `k` at least 1, the walk of `beat` does not leave the loop at point `k`: it
ends with `previous*` equal to the beat, the tempo and the start time of point
`k` itself (so `previousBeat` is not the beat of point `k - 1`), and the
returned beat is the beat of point `k`. -/
theorem C16_walk_advances_to_boundary_point (d : TimingData) (k : Nat) (t : ℚ)
    (hwf : WellFormed d.m_timingPoints) (hpos : ∀ p ∈ d.m_timingPoints, 0 < p.tempo)
    (hk : 1 ≤ k) (hstart : d.startTime k = some t) (ht : d.m_offset < t) :
    ∃ p0 rest pk s, d.m_timingPoints = p0 :: rest ∧ d.m_timingPoints[k]? = some pk ∧
      beatLoop t d.m_timingPoints (d.beatWalkStart p0) = some s ∧
      s.previousBeat = pk.beat ∧ s.previousTempo = pk.tempo ∧ s.previousTime = t ∧
      (∀ q, d.m_timingPoints[k - 1]? = some q → s.previousBeat ≠ q.beat) ∧
      d.beat t = some pk.beat := by
  obtain ⟨⟨p0, rest, hp, _⟩, hs⟩ := hwf
  have hs0 : StrictlyIncreasing (p0 :: rest) := hp ▸ hs
  have hpos0 : ∀ p ∈ p0 :: rest, 0 < p.tempo := hp ▸ hpos
  have hge : ∀ p ∈ p0 :: rest, p0.beat ≤ p.beat := by
    intro p hmem
    rcases List.mem_cons.mp hmem with rfl | hmem
    · exact le_refl _
    · exact ((List.pairwise_cons.mp hs0).1 p hmem).le
  have hst : startTimeFrom d.m_offset p0.beat p0.tempo (p0 :: rest) k = some t := by
    unfold TimingData.startTime at hstart
    rw [hp] at hstart
    exact hstart
  obtain ⟨pk, s, hget, hloop, h1, h2, h3⟩ := beatLoop_at_start_time (p0 :: rest) k
    d.m_offset d.m_offset p0.beat p0.tempo t (hpos0 p0 (List.mem_cons_self _ _))
    hpos0 hs0 hge hst
  refine ⟨p0, rest, pk, s, hp, by rw [hp]; exact hget, by rw [hp]; exact hloop,
    h1, h2, h3, ?_, ?_⟩
  · intro q hq
    rw [h1]
    rw [hp] at hq
    exact ne_of_gt (beat_lt_of_index_lt (p0 :: rest) hs0 (k - 1) k (by omega) q pk hq hget)
  · unfold TimingData.beat
    rw [hp]
    simp only [not_le.mpr ht, if_false, hloop, Option.map_some', h1, h2, h3]
    simp

/-- Witness for C16 (amended): the point at index 1 of `(0,120), (8,180)`, offset 0. -/
theorem C16_walk_advances_to_boundary_point_witness :
    ∃ p0 rest pk s, (TimingData.mk 0 [⟨0, 120⟩, ⟨8, 180⟩]).m_timingPoints = p0 :: rest ∧
      (TimingData.mk 0 [⟨0, 120⟩, ⟨8, 180⟩]).m_timingPoints[1]? = some pk ∧
      beatLoop 4 (TimingData.mk 0 [⟨0, 120⟩, ⟨8, 180⟩]).m_timingPoints
        ((TimingData.mk 0 [⟨0, 120⟩, ⟨8, 180⟩]).beatWalkStart p0) = some s ∧
      s.previousBeat = pk.beat ∧ s.previousTempo = pk.tempo ∧ s.previousTime = 4 ∧
      (∀ q, (TimingData.mk 0 [⟨0, 120⟩, ⟨8, 180⟩]).m_timingPoints[1 - 1]? = some q →
        s.previousBeat ≠ q.beat) ∧
      (TimingData.mk 0 [⟨0, 120⟩, ⟨8, 180⟩]).beat 4 = some pk.beat :=
  C16_walk_advances_to_boundary_point ⟨0, [⟨0, 120⟩, ⟨8, 180⟩]⟩ 1 4
    ⟨⟨_, _, rfl, rfl⟩, by unfold StrictlyIncreasing; decide⟩
    (by decide) (by decide)
    (by simp [TimingData.startTime, startTimeFrom]; norm_num) (by decide)

end ChartEditor
